import Mathlib

/-!
Verification of the `ArgCLITool` lexer (`src/ArgCLITool/CLILexer.hpp`).

The C++ lexer reads characters from a `std::istream`. We embed the stream as
the list of characters remaining in the input; every stream operation of the
source is mirrored on that list:

* `stream_.get(c)` succeeds exactly when the list is nonempty, yielding its
  head and the tail as the new stream; on failure (empty list) `c` is left
  unchanged, mirroring C++ `istream::get(char&)`.
* `stream_.peek()` assigned to a `char` yields the head when the list is
  nonempty; at end-of-input `peek()` returns `EOF` (-1), whose conversion to
  `char` is the all-ones byte.  We model that byte as `eofChar`
  (code point 255): it is nonzero, is not `'\n'`, and satisfies none of the
  lexer's `isAlpha`/`isDigit` range tests, exactly like `(char)EOF` whether
  `char` is signed or unsigned.
* `stream_.unget()` after a successful `get` restores the previous list; the
  dispatch in `nextToken` that does `get`, `switch`, `unget` is embedded by
  inspecting the head and handing the sub-scanner the unshortened list.

Loops of the shape `while ((c = stream_.peek()))` exit when the peeked
character is the NUL byte; at end-of-input the peeked value is `eofChar`,
which does NOT exit the loop, and the subsequent failing `get` leaves `c`
holding `eofChar`.  `readComment` appends that stale `c` and loops forever;
it is therefore embedded with a fuel parameter, `none` meaning the call never
returns.  All other loops consume a character at every step and are embedded
by structural recursion.

The only numeric code not embedded concretely is the float branch of
`readNumber` (`iss >> floating` at 32-bit precision followed by
`std::to_string`); the lexer is parameterized by `floatRender`, the partial
function giving the rendered text when the float parse consumes the whole
unsuffixed text.  Every theorem that does not depend on binary32 semantics is
proved for all instantiations.
-/

namespace ArgCLITool

/-- The token kinds of `CLIToken::Type`. -/
inductive CLITokenType
  | Identifier
  | String
  | Integer
  | Float
  | LeftParen
  | RightParen
  | LeftSquare
  | RightSquare
  | LeftCurly
  | RightCurly
  | Comma
  | EndOfLine
  | Comment
  | EndOfFile
  | Unknown
deriving DecidableEq, Repr

/-- `struct CLIToken`: a kind (`type`) and a text payload (`value`).
The C++ struct has exactly these two fields. -/
structure CLIToken where
  type : CLITokenType
  value : String
deriving DecidableEq, Repr

/-- The NUL byte; a peek-driven scanning loop `while ((c = stream_.peek()))`
exits when the next character is this. -/
def nulChar : Char := Char.ofNat 0

/-- The value left in a `char` by `c = stream_.peek()` at end-of-input:
`peek()` returns `EOF` (-1) and the conversion to `char` gives the all-ones
byte (value -1 as signed `char`, 255 as unsigned). -/
def eofChar : Char := Char.ofNat 255

/-- `CLILexer::isDigit`: `c >= '0' && c <= '9'`. -/
def isDigit (c : Char) : Bool := '0' ≤ c && c ≤ '9'

/-- `CLILexer::isAlpha`: `(c >= 'a' && c <= 'z') || (c >= 'A' && c <= 'Z')`. -/
def isAlpha (c : Char) : Bool := ('a' ≤ c && c ≤ 'z') || ('A' ≤ c && c ≤ 'Z')

/-- The characters of the `switch` in `nextToken` that dispatch to
`readIdentifier`: the letters `A`-`Z`, `a`-`z` and `_`. -/
def isIdentStart (c : Char) : Bool := isAlpha c || c = '_'

/-- The characters of the `switch` in `nextToken` that dispatch to
`readNumber`: `-`, `+`, `.` and the digits. -/
def isNumberStart (c : Char) : Bool := c = '-' || c = '+' || c = '.' || isDigit c

/-- The character class consumed by the loop of `readIdentifier`:
`isAlpha(c) || isDigit(c) || c == '_'`. -/
def isIdentChar (c : Char) : Bool := isAlpha c || isDigit c || c = '_'

/-- The character class consumed by the loop of `readNumber`:
`isDigit(c) || isAlpha(c) || c == '.' || c == '-' || c == '+'`. -/
def isNumberChar (c : Char) : Bool :=
  isDigit c || isAlpha c || c = '.' || c = '-' || c = '+'

/-- `CLILexer::readIdentifier`.  The loop peeks the next character; it exits
when the peeked value is NUL (loop condition) or the character does not
qualify (the `break`), leaving that character unconsumed.  At end-of-input the
peeked value is `eofChar`, which fails every qualification test, so the loop
breaks, matching the `[]` case. -/
def readIdentifier (value : String) : List Char → CLIToken × List Char
  | [] => (⟨CLITokenType.Identifier, value⟩, [])
  | c :: rest =>
    if c = nulChar then (⟨CLITokenType.Identifier, value⟩, c :: rest)
    else if isIdentChar c then readIdentifier (value.push c) rest
    else (⟨CLITokenType.Identifier, value⟩, c :: rest)

/-- The scanning loop of `CLILexer::readNumber`: greedily consume characters
of `isNumberChar`, with the same NUL / end-of-input exits as
`readIdentifier`; returns the consumed run and the remaining stream. -/
def readNumberRun (value : String) : List Char → String × List Char
  | [] => (value, [])
  | c :: rest =>
    if c = nulChar then (value, c :: rest)
    else if isNumberChar c then readNumberRun (value.push c) rest
    else (value, c :: rest)

/-- 64-bit signed integer bounds (`int64_t`). -/
def int64Max : Int := 9223372036854775807

/-- Lower `int64_t` bound. -/
def int64Min : Int := -9223372036854775808

/-- The decimal value of a digit run, most significant digit first. -/
def digitsVal (cs : List Char) : Nat :=
  cs.foldl (fun a c => 10 * a + (c.toNat - '0'.toNat)) 0

/-- The integer-parse test of `readNumber`:
`iss >> integer; iss.eof() && !iss.fail()` on an `std::istringstream` holding
`t`, with `integer : int64_t`.  The extraction succeeds with the whole text
consumed exactly when `t` is an optional sign followed by at least one
decimal digit and nothing else, and the value fits in `int64_t` (on overflow
`failbit` is set).  The sentry's leading-whitespace skip is irrelevant: `t`
is a number run, which never contains whitespace. -/
def parseInt64 (t : String) : Option Int :=
  let digits : List Char → Option Int := fun cs =>
    if cs ≠ [] && cs.all isDigit then some (digitsVal cs) else none
  match t.toList with
  | '+' :: cs => (digits cs).bind fun n => if n ≤ int64Max then some n else none
  | '-' :: cs => (digits cs).bind fun n => if int64Min ≤ -n then some (-n) else none
  | cs => (digits cs).bind fun n => if n ≤ int64Max then some n else none

/-- The float-suffix test of `readNumber`:
`value.length() > 0 && (value.back() == 'f' || value.back() == 'F')`. -/
def hasFloatSuffix (value : String) : Bool :=
  value.length > 0 && (value.back = 'f' || value.back = 'F')

/-- The text handed to the numeric parses:
`has_suffix ? value.substr(0, value.length() - 1) : value`. -/
def unsuffixedText (value : String) : String :=
  if hasFloatSuffix value then value.dropRight 1 else value

/-- `CLILexer::readNumber` after its scanning loop, parameterized by
`floatRender`, the abstracted float branch (`iss >> floating` with
`float floating`, then `std::to_string(floating)`): `floatRender u = some txt`
models the float parse consuming all of `u` and rendering `txt`.  The source:
strip a trailing `f`/`F` suffix, try the full 64-bit integer parse (suffix
present on success gives `Unknown` with the original text, otherwise
`Integer` with the canonical decimal re-rendering `std::to_string(integer)`),
then the float parse, else `Unknown` with the raw run. -/
def readNumber (floatRender : String → Option String) (s : List Char) :
    CLIToken × List Char :=
  let (value, s₂) := readNumberRun "" s
  match parseInt64 (unsuffixedText value) with
  | some n =>
    if hasFloatSuffix value then (⟨CLITokenType.Unknown, value⟩, s₂)
    else (⟨CLITokenType.Integer, toString n⟩, s₂)
  | none =>
    match floatRender (unsuffixedText value) with
    | some txt => (⟨CLITokenType.Float, txt⟩, s₂)
    | none => (⟨CLITokenType.Unknown, value⟩, s₂)

/-- `CLILexer::readString`.  The loop is `while (stream_.get(c))`, so it ends
at end-of-input with the token holding whatever was accumulated.  With the
escape flag set: `'\r'` is skipped with the flag kept, `'\n'` is skipped with
the flag cleared, any other character is appended with the flag cleared.
Otherwise `'\\'` sets the flag, an unescaped `'"'` ends the string
(consumed, not appended), and any other character is appended. -/
def readString (value : String) (escape : Bool) : List Char → CLIToken × List Char
  | [] => (⟨CLITokenType.String, value⟩, [])
  | c :: rest =>
    if escape then
      if c = '\r' then readString value true rest
      else if c = '\n' then readString value false rest
      else readString (value.push c) false rest
    else if c = '\\' then readString value true rest
    else if c = '"' then (⟨CLITokenType.String, value⟩, rest)
    else readString (value.push c) false rest

/-- `CLILexer::readComment`, fuel-indexed; `none` means the call has not
returned within `fuel` loop iterations.  The loop peeks: NUL exits the loop,
`'\n'` breaks (unconsumed), any other character is consumed and appended.
At end-of-input the peeked value is `eofChar` — nonzero and not `'\n'` — so
neither exit applies; the failing `get` leaves `c` unchanged and the loop
appends `eofChar` and repeats with the stream still empty, forever. -/
def readComment (fuel : Nat) (value : String) (s : List Char) :
    Option (CLIToken × List Char) :=
  match fuel with
  | 0 => none
  | fuel + 1 =>
    match s with
    | [] => readComment fuel (value.push eofChar) []
    | c :: rest =>
      if c = nulChar then some (⟨CLITokenType.Comment, value⟩, c :: rest)
      else if c = '\n' then some (⟨CLITokenType.Comment, value⟩, c :: rest)
      else readComment fuel (value.push c) rest

/-- `CLILexer::nextToken`, parameterized by the abstract float branch and by
fuel for `readComment`.  The main loop `while (stream_.get(c))` exits at
end-of-input yielding `EndOfFile` with empty text; otherwise the first
character is dispatched by the `switch`: identifier characters and number
characters are ungotten and handed to their sub-scanner, `'"'` (consumed)
starts a string, the seven punctuation characters and `'\n'` give immediate
tokens, `'#'` is ungotten and handed to `readComment`, space/tab/CR are
skipped, and anything else is an `Unknown` token of that single character. -/
def nextTokenAux (floatRender : String → Option String) (fuel : Nat) :
    List Char → Option (CLIToken × List Char)
  | [] => some (⟨CLITokenType.EndOfFile, ""⟩, [])
  | c :: rest =>
    if isIdentStart c then some (readIdentifier "" (c :: rest))
    else if c = '"' then some (readString "" false rest)
    else if isNumberStart c then some (readNumber floatRender (c :: rest))
    else if c = '(' then some (⟨CLITokenType.LeftParen, "("⟩, rest)
    else if c = ')' then some (⟨CLITokenType.RightParen, ")"⟩, rest)
    else if c = '[' then some (⟨CLITokenType.LeftSquare, "["⟩, rest)
    else if c = ']' then some (⟨CLITokenType.RightSquare, "]"⟩, rest)
    else if c = Char.ofNat 123 then some (⟨CLITokenType.LeftCurly, "\x7b"⟩, rest)
    else if c = Char.ofNat 125 then some (⟨CLITokenType.RightCurly, "\x7d"⟩, rest)
    else if c = ',' then some (⟨CLITokenType.Comma, ","⟩, rest)
    else if c = '\n' then some (⟨CLITokenType.EndOfLine, ""⟩, rest)
    else if c = '#' then readComment fuel "" (c :: rest)
    else if c = ' ' || c = '\t' || c = '\r' then nextTokenAux floatRender fuel rest
    else some (⟨CLITokenType.Unknown, String.push "" c⟩, rest)

/-- A concrete instantiation of the abstract float branch used where a closed
statement needs one; the inputs of every such statement never reach the
float branch, so any instantiation yields the same tokens there. -/
def noFloat : String → Option String := fun _ => none

/-- The consumer loop of the output boundary: pull tokens with `nextToken`
until `EndOfFile`, collecting at most `n` tokens; `none` if a call diverges
or `EndOfFile` is not reached within `n` tokens. -/
def tokenize (floatRender : String → Option String) (fuel : Nat) :
    Nat → List Char → Option (List CLIToken)
  | 0, _ => none
  | n + 1, s =>
    match nextTokenAux floatRender fuel s with
    | none => none
    | some (t, s₂) =>
      if t.type = CLITokenType.EndOfFile then some [t]
      else (tokenize floatRender fuel n s₂).map (t :: ·)

/-- Modelled from the spec: `CLILexer` in `src/` has no `peekToken` and no
lookahead member — only `nextToken` exists.  The spec (§3, §4.1) describes a
lexer state owning the character source plus an optional one-token lookahead
cache ("the lookahead buffer holds at most one pending token at a time").
This structure follows those words, over the embedded character source. -/
structure BufLexer where
  lookahead : Option CLIToken
  source : List Char
deriving DecidableEq, Repr

/-- Modelled from the spec: `peekToken() -> Token&` — "returns the next token
without consuming it from the logical stream; repeated calls before the next
`nextToken()` yield the same token.  Computes and caches the token lazily on
first call."  On a cache miss the token is computed by the embedded
`nextTokenAux` and stored in the lookahead buffer. -/
def peekToken (floatRender : String → Option String) (fuel : Nat)
    (L : BufLexer) : Option (CLIToken × BufLexer) :=
  match L.lookahead with
  | some t => some (t, L)
  | none =>
    match nextTokenAux floatRender fuel L.source with
    | some (t, s₂) => some (t, ⟨some t, s₂⟩)
    | none => none

/-- Modelled from the spec: `nextToken() -> Token` of the buffered lexer —
"returns and consumes the next token.  If a lookahead token is pending, it is
returned and cleared instead of rescanning." -/
def nextTokenBuf (floatRender : String → Option String) (fuel : Nat)
    (L : BufLexer) : Option (CLIToken × BufLexer) :=
  match L.lookahead with
  | some t => some (t, ⟨none, L.source⟩)
  | none =>
    match nextTokenAux floatRender fuel L.source with
    | some (t, s₂) => some (t, ⟨none, s₂⟩)
    | none => none

/-! ## Helper lemmas -/

theorem string_push_mk (acc : List Char) (c : Char) :
    String.push ⟨acc⟩ c = ⟨acc ++ [c]⟩ := rfl

theorem readIdentifier_go : ∀ (l : List Char), (∀ c ∈ l, isIdentChar c = true) →
    ∀ (acc : List Char) (s : List Char),
      readIdentifier ⟨acc⟩ (l ++ s) = readIdentifier ⟨acc ++ l⟩ s := by
  intro l
  induction l with
  | nil => intro _ acc s; simp
  | cons c cs ih =>
    intro h acc s
    have hc : isIdentChar c = true := h c (List.mem_cons_self c cs)
    have hnul : c ≠ nulChar := by
      intro e; rw [e] at hc; exact absurd hc (by decide)
    rw [List.cons_append]
    simp only [readIdentifier]
    rw [if_neg hnul, if_pos hc, string_push_mk,
      ih (fun d hd => h d (List.mem_cons_of_mem c hd)) (acc ++ [c]) s,
      List.append_assoc]
    rfl

theorem readIdentifier_stop (v : String) (s : List Char)
    (h : s = [] ∨ ∃ c rest, s = c :: rest ∧ isIdentChar c = false) :
    readIdentifier v s = (⟨CLITokenType.Identifier, v⟩, s) := by
  rcases h with h | ⟨c, rest, rfl, hc⟩
  · subst h; rfl
  · simp only [readIdentifier]
    by_cases hnul : c = nulChar
    · rw [if_pos hnul]
    · rw [if_neg hnul, if_neg (by simp [hc])]

theorem readNumberRun_go : ∀ (l : List Char), (∀ c ∈ l, isNumberChar c = true) →
    ∀ (acc : List Char) (s : List Char),
      readNumberRun ⟨acc⟩ (l ++ s) = readNumberRun ⟨acc ++ l⟩ s := by
  intro l
  induction l with
  | nil => intro _ acc s; simp
  | cons c cs ih =>
    intro h acc s
    have hc : isNumberChar c = true := h c (List.mem_cons_self c cs)
    have hnul : c ≠ nulChar := by
      intro e; rw [e] at hc; exact absurd hc (by decide)
    rw [List.cons_append]
    simp only [readNumberRun]
    rw [if_neg hnul, if_pos hc, string_push_mk,
      ih (fun d hd => h d (List.mem_cons_of_mem c hd)) (acc ++ [c]) s,
      List.append_assoc]
    rfl

theorem readNumberRun_stop (v : String) (s : List Char)
    (h : s = [] ∨ ∃ c rest, s = c :: rest ∧ isNumberChar c = false) :
    readNumberRun v s = (v, s) := by
  rcases h with h | ⟨c, rest, rfl, hc⟩
  · subst h; rfl
  · simp only [readNumberRun]
    by_cases hnul : c = nulChar
    · rw [if_pos hnul]
    · rw [if_neg hnul, if_neg (by simp [hc])]

theorem readString_plain : ∀ (l : List Char), (∀ c ∈ l, c ≠ '"' ∧ c ≠ '\\') →
    ∀ (acc : List Char),
      readString ⟨acc⟩ false l = (⟨CLITokenType.String, ⟨acc ++ l⟩⟩, []) := by
  intro l
  induction l with
  | nil => intro _ acc; simp [readString]
  | cons c cs ih =>
    intro h acc
    obtain ⟨hq, hb⟩ := h c (List.mem_cons_self c cs)
    simp only [readString, Bool.false_eq_true, if_false]
    rw [if_neg hb, if_neg hq, string_push_mk,
      ih (fun d hd => h d (List.mem_cons_of_mem c hd)) (acc ++ [c]),
      List.append_assoc]
    rfl

theorem readComment_empty_none : ∀ (fuel : Nat) (v : String),
    readComment fuel v [] = none := by
  intro fuel
  induction fuel with
  | zero => intro v; rfl
  | succ n ih => intro v; simp only [readComment]; exact ih _

theorem readComment_diverges : ∀ (l : List Char), (∀ c ∈ l, c ≠ '\n' ∧ c ≠ nulChar) →
    ∀ (fuel : Nat) (v : String), readComment fuel v l = none := by
  intro l
  induction l with
  | nil => intro _ fuel v; exact readComment_empty_none fuel v
  | cons c cs ih =>
    intro h fuel v
    obtain ⟨hn, hnul⟩ := h c (List.mem_cons_self c cs)
    cases fuel with
    | zero => rfl
    | succ n =>
      simp only [readComment]
      rw [if_neg hnul, if_neg hn]
      exact ih (fun d hd => h d (List.mem_cons_of_mem c hd)) n _

theorem readComment_run : ∀ (l : List Char), (∀ c ∈ l, c ≠ '\n' ∧ c ≠ nulChar) →
    ∀ (fuel : Nat) (acc : List Char) (s : List Char), l.length < fuel →
      readComment fuel ⟨acc⟩ (l ++ '\n' :: s)
        = some (⟨CLITokenType.Comment, ⟨acc ++ l⟩⟩, '\n' :: s) := by
  intro l
  induction l with
  | nil =>
    intro _ fuel acc s hfuel
    cases fuel with
    | zero => exact absurd hfuel (by simp)
    | succ n => simp [readComment, nulChar]
  | cons c cs ih =>
    intro h fuel acc s hfuel
    obtain ⟨hn, hnul⟩ := h c (List.mem_cons_self c cs)
    cases fuel with
    | zero => exact absurd hfuel (by simp)
    | succ n =>
      rw [List.cons_append]
      simp only [readComment]
      rw [if_neg hnul, if_neg hn, string_push_mk,
        ih (fun d hd => h d (List.mem_cons_of_mem c hd)) n (acc ++ [c]) s
          (by simpa using Nat.lt_of_succ_lt_succ hfuel),
        List.append_assoc]
      rfl

theorem readIdentifier_type : ∀ (s : List Char) (v : String),
    (readIdentifier v s).1.type = CLITokenType.Identifier := by
  intro s
  induction s with
  | nil => intro v; rfl
  | cons c rest ih =>
    intro v
    simp only [readIdentifier]
    split
    · rfl
    · split
      · exact ih _
      · rfl

theorem readString_type : ∀ (s : List Char) (v : String) (escape : Bool),
    (readString v escape s).1.type = CLITokenType.String := by
  intro s
  induction s with
  | nil => intro v escape; rfl
  | cons c rest ih =>
    intro v escape
    simp only [readString]
    split
    · split
      · exact ih _ _
      · split
        · exact ih _ _
        · exact ih _ _
    · split
      · exact ih _ _
      · split
        · rfl
        · exact ih _ _

theorem readNumber_type_ne (floatRender : String → Option String) (s : List Char) :
    (readNumber floatRender s).1.type ≠ CLITokenType.EndOfFile := by
  unfold readNumber
  rcases hrun : readNumberRun "" s with ⟨value, s₂⟩
  cases hp : parseInt64 (unsuffixedText value) with
  | none =>
    cases hf : floatRender (unsuffixedText value) with
    | none => simp [hp, hf]
    | some txt => simp [hp, hf]
  | some n =>
    by_cases hs : hasFloatSuffix value = true
    · simp [hp, hs]
    · simp [hp, hs]

theorem readComment_type : ∀ (fuel : Nat) (v : String) (s : List Char)
    (t : CLIToken) (s₂ : List Char),
    readComment fuel v s = some (t, s₂) → t.type = CLITokenType.Comment := by
  intro fuel
  induction fuel with
  | zero => intro v s t s₂ h; exact absurd h (by simp [readComment])
  | succ n ih =>
    intro v s t s₂ h
    cases s with
    | nil =>
      simp only [readComment] at h
      exact ih _ _ _ _ h
    | cons c rest =>
      simp only [readComment] at h
      rcases Decidable.em (c = nulChar) with hnul | hnul
      · rw [if_pos hnul, Option.some.injEq, Prod.mk.injEq] at h
        rw [← h.1]
      · rw [if_neg hnul] at h
        rcases Decidable.em (c = '\n') with hn | hn
        · rw [if_pos hn, Option.some.injEq, Prod.mk.injEq] at h
          rw [← h.1]
        · rw [if_neg hn] at h
          exact ih _ _ _ _ h

theorem some_tok_type {k : CLITokenType} {v : String} {s₁ : List Char} {t : CLIToken}
    {s₂ : List Char}
    (h : (some ((⟨k, v⟩ : CLIToken), s₁) : Option (CLIToken × List Char)) = some (t, s₂)) :
    t.type = k := by
  rw [Option.some.injEq, Prod.mk.injEq] at h
  rw [← h.1]

theorem nextTokenAux_eof_state : ∀ (s : List Char) (floatRender : String → Option String)
    (fuel : Nat) (t : CLIToken) (s₂ : List Char),
    nextTokenAux floatRender fuel s = some (t, s₂) →
    t.type = CLITokenType.EndOfFile → t.value = "" ∧ s₂ = [] := by
  intro s
  induction s with
  | nil =>
    intro fr fuel t s₂ h _
    simp only [nextTokenAux, Option.some.injEq, Prod.mk.injEq] at h
    exact ⟨congrArg CLIToken.value h.1.symm, h.2.symm⟩
  | cons c rest ih =>
    intro fr fuel t s₂ h ht
    simp only [nextTokenAux] at h
    by_cases h1 : isIdentStart c = true
    · rw [if_pos h1, Option.some.injEq] at h
      have hk := readIdentifier_type (c :: rest) ""
      rw [h, ht] at hk
      exact absurd hk (by decide)
    rw [if_neg h1] at h
    by_cases h2 : c = '"'
    · rw [if_pos h2, Option.some.injEq] at h
      have hk := readString_type rest "" false
      rw [h, ht] at hk
      exact absurd hk (by decide)
    rw [if_neg h2] at h
    by_cases h3 : isNumberStart c = true
    · rw [if_pos h3, Option.some.injEq] at h
      have hk := readNumber_type_ne fr (c :: rest)
      rw [h, ht] at hk
      exact absurd rfl hk
    rw [if_neg h3] at h
    by_cases h4 : c = '('
    · rw [if_pos h4] at h
      rw [some_tok_type h] at ht
      exact absurd ht (by decide)
    rw [if_neg h4] at h
    by_cases h5 : c = ')'
    · rw [if_pos h5] at h
      rw [some_tok_type h] at ht
      exact absurd ht (by decide)
    rw [if_neg h5] at h
    by_cases h6 : c = '['
    · rw [if_pos h6] at h
      rw [some_tok_type h] at ht
      exact absurd ht (by decide)
    rw [if_neg h6] at h
    by_cases h7 : c = ']'
    · rw [if_pos h7] at h
      rw [some_tok_type h] at ht
      exact absurd ht (by decide)
    rw [if_neg h7] at h
    by_cases h8 : c = Char.ofNat 123
    · rw [if_pos h8] at h
      rw [some_tok_type h] at ht
      exact absurd ht (by decide)
    rw [if_neg h8] at h
    by_cases h9 : c = Char.ofNat 125
    · rw [if_pos h9] at h
      rw [some_tok_type h] at ht
      exact absurd ht (by decide)
    rw [if_neg h9] at h
    by_cases h10 : c = ','
    · rw [if_pos h10] at h
      rw [some_tok_type h] at ht
      exact absurd ht (by decide)
    rw [if_neg h10] at h
    by_cases h11 : c = '\n'
    · rw [if_pos h11] at h
      rw [some_tok_type h] at ht
      exact absurd ht (by decide)
    rw [if_neg h11] at h
    by_cases h12 : c = '#'
    · rw [if_pos h12] at h
      rw [readComment_type fuel "" (c :: rest) t s₂ h] at ht
      exact absurd ht (by decide)
    rw [if_neg h12] at h
    by_cases h13 : (c = ' ' || c = '\t' || c = '\r') = true
    · rw [if_pos h13] at h
      exact ih fr fuel t s₂ h ht
    rw [if_neg h13] at h
    rw [some_tok_type h] at ht
    exact absurd ht (by decide)

/-! ## Claim theorems -/

/-- Claim C1: the lexer provides a `peekToken` operation with an idempotent
one-token lookahead: whenever `peekToken` returns a token, peeking again
(with any fuel) returns the same token and the same lexer state, the next
`nextToken` call returns that same token while clearing the buffer and
advancing past the token exactly once (the underlying source was advanced by
the single scan that filled the cache), and the lookahead buffer holds
exactly that one pending token.  The buffered lexer is modelled from the
spec: `CLILexer` in `src/` has no `peekToken`. -/
theorem c1_peek_idempotent (floatRender : String → Option String)
    (fuel fuel₂ fuel₃ : Nat) (L L' : BufLexer) (t : CLIToken)
    (h : peekToken floatRender fuel L = some (t, L')) :
    peekToken floatRender fuel₂ L' = some (t, L')
    ∧ nextTokenBuf floatRender fuel₃ L' = some (t, ⟨none, L'.source⟩)
    ∧ L'.lookahead = some t := by
  have hbuf : L'.lookahead = some t := by
    unfold peekToken at h
    cases hb : L.lookahead with
    | some t₀ =>
      rw [hb] at h
      rw [Option.some.injEq, Prod.mk.injEq] at h
      rw [← h.2, hb, h.1]
    | none =>
      rw [hb] at h
      cases hs : nextTokenAux floatRender fuel L.source with
      | none => rw [hs] at h; exact absurd h (by simp)
      | some p =>
        obtain ⟨t₀, s₂⟩ := p
        rw [hs] at h
        rw [Option.some.injEq, Prod.mk.injEq] at h
        rw [← h.2, h.1]
  refine ⟨?_, ?_, hbuf⟩
  · unfold peekToken
    rw [hbuf]
  · unfold nextTokenBuf
    rw [hbuf]

/-- Claim C1 witness: peeking an identifier from the source `"a"` fills the
buffer; the theorem then gives the idempotent re-peek, the buffered
`nextToken`, and the buffer content. -/
theorem c1_peek_idempotent_witness :
    peekToken noFloat 2 ⟨some ⟨CLITokenType.Identifier, "a"⟩, []⟩
      = some (⟨CLITokenType.Identifier, "a"⟩,
          ⟨some ⟨CLITokenType.Identifier, "a"⟩, []⟩)
    ∧ nextTokenBuf noFloat 3 ⟨some ⟨CLITokenType.Identifier, "a"⟩, []⟩
      = some (⟨CLITokenType.Identifier, "a"⟩,
          ⟨none, (⟨some ⟨CLITokenType.Identifier, "a"⟩, []⟩ : BufLexer).source⟩)
    ∧ (⟨some ⟨CLITokenType.Identifier, "a"⟩, []⟩ : BufLexer).lookahead
      = some ⟨CLITokenType.Identifier, "a"⟩ :=
  c1_peek_idempotent noFloat 1 2 3 ⟨none, ['a']⟩
    ⟨some ⟨CLITokenType.Identifier, "a"⟩, []⟩ ⟨CLITokenType.Identifier, "a"⟩
    (by decide)

/-- Claim C2 counterexample: lexing `"# hello\n"` yields a `Comment` token
whose text is `"# hello"`, not `" hello"`: `nextToken` calls
`stream_.unget()` before `readComment()`, so the comment loop consumes and
appends the `#` itself, and the claimed exclusion of the leading `#` fails. -/
theorem c2_counterexample :
    nextTokenAux noFloat 20 ("# hello\n".toList)
      = some (⟨CLITokenType.Comment, "# hello"⟩, ['\n'])
    ∧ "# hello" ≠ " hello" :=
  ⟨by decide, by decide⟩

/-- Claim C2 (amended): when `nextToken` encounters `#`, the produced
`Comment` token's text is the `#` together with the characters after it up
to but not including the next newline, and the newline is left unconsumed;
lexing `"# hello\n"` yields `Comment` with text `"# hello"`, then
`EndOfLine`, then `EndOfFile`. -/
theorem c2_comment_token (floatRender : String → Option String) (fuel : Nat)
    (l rest : List Char) (h : ∀ c ∈ l, c ≠ '\n' ∧ c ≠ nulChar)
    (hfuel : l.length + 1 < fuel) :
    nextTokenAux floatRender fuel ('#' :: (l ++ '\n' :: rest))
      = some (⟨CLITokenType.Comment, ⟨'#' :: l⟩⟩, '\n' :: rest)
    ∧ tokenize noFloat 20 4 ("# hello\n".toList)
      = some [⟨CLITokenType.Comment, "# hello"⟩, ⟨CLITokenType.EndOfLine, ""⟩,
          ⟨CLITokenType.EndOfFile, ""⟩] := by
  constructor
  · have hstep : nextTokenAux floatRender fuel ('#' :: (l ++ '\n' :: rest))
        = readComment fuel "" ('#' :: (l ++ '\n' :: rest)) := rfl
    have hall : ∀ c ∈ '#' :: l, c ≠ '\n' ∧ c ≠ nulChar := by
      intro c hc
      rcases List.mem_cons.mp hc with rfl | hc
      · exact ⟨by decide, by decide⟩
      · exact h c hc
    have hrun := readComment_run ('#' :: l) hall fuel [] rest (by simpa using hfuel)
    rw [hstep]
    rw [show ('#' :: (l ++ '\n' :: rest)) = (('#' :: l) ++ '\n' :: rest) from rfl,
      show ("" : String) = (⟨[]⟩ : String) from rfl, hrun]
    simp
  · decide

/-- Claim C2 witness: the amended comment rule applied to `"# hello\n"`. -/
theorem c2_comment_token_witness :
    nextTokenAux noFloat 20 ('#' :: (" hello".toList ++ '\n' :: []))
      = some (⟨CLITokenType.Comment, ⟨'#' :: " hello".toList⟩⟩, '\n' :: []) :=
  (c2_comment_token noFloat 20 (" hello".toList) [] (by decide) (by decide)).1

/-- Claim C3 (code bug): on the input `"#abc"` — a comment reaching
end-of-input before any newline — `nextToken` never returns: for every fuel
bound the embedded call is still running.  At end-of-input
`stream_.peek()` returns `EOF`, whose `char` value is nonzero and not
`'\n'`, so neither loop exit of `readComment` applies; the failing
`stream_.get(c)` leaves `c` unchanged and the loop appends that stale byte
and repeats forever.  The claim (and the spec) say scanning stops at
end-of-input returning the accumulated `Comment` token. -/
theorem c3_unterminated_comment_diverges (floatRender : String → Option String) :
    ∀ fuel : Nat, nextTokenAux floatRender fuel ("#abc".toList) = none := by
  intro fuel
  have hstep : nextTokenAux floatRender fuel ("#abc".toList)
      = readComment fuel "" ("#abc".toList) := rfl
  rw [hstep]
  exact readComment_diverges ("#abc".toList) (by decide) fuel ""

/-- Claim C5: a number run whose unsuffixed text passes the full 64-bit
integer parse yields `Unknown` with the original suffixed text when an
`f`/`F` suffix was present, and otherwise `Integer` whose text is the
canonical decimal re-rendering `toString n` of the parsed value (so a
leading `+` and leading zeros are normalized away). -/
theorem c5_integer_token (floatRender : String → Option String) (fuel : Nat)
    (c₀ : Char) (l stop : List Char) (n : Int)
    (hid : isIdentStart c₀ = false) (hq : c₀ ≠ '"')
    (hnum : isNumberStart c₀ = true)
    (hrun : ∀ c ∈ c₀ :: l, isNumberChar c = true)
    (hstop : stop = [] ∨ ∃ d rest, stop = d :: rest ∧ isNumberChar d = false)
    (hparse : parseInt64 (unsuffixedText ⟨c₀ :: l⟩) = some n) :
    nextTokenAux floatRender fuel ((c₀ :: l) ++ stop)
      = some (if hasFloatSuffix ⟨c₀ :: l⟩
          then ((⟨CLITokenType.Unknown, ⟨c₀ :: l⟩⟩ : CLIToken), stop)
          else ((⟨CLITokenType.Integer, toString n⟩ : CLIToken), stop)) := by
  have hstep : nextTokenAux floatRender fuel ((c₀ :: l) ++ stop)
      = some (readNumber floatRender ((c₀ :: l) ++ stop)) := by
    rw [show ((c₀ :: l) ++ stop) = c₀ :: (l ++ stop) from rfl]
    simp only [nextTokenAux]
    rw [if_neg (by simp [hid]), if_neg hq, if_pos hnum]
  have hrun' : readNumberRun "" ((c₀ :: l) ++ stop) = (⟨c₀ :: l⟩, stop) := by
    rw [show ("" : String) = (⟨[]⟩ : String) from rfl,
      readNumberRun_go (c₀ :: l) hrun [] stop, readNumberRun_stop _ _ hstop]
    simp
  rw [hstep]
  unfold readNumber
  rw [hrun']
  simp only [hparse]

/-- Claim C5 witness: `+007` lexes to `Integer` with normalized text `7`,
and `123f` lexes to `Unknown` with the original text `123f`. -/
theorem c5_integer_token_witness :
    nextTokenAux noFloat 1 ('+' :: ['0', '0', '7'] ++ [])
      = some (⟨CLITokenType.Integer, "7"⟩, [])
    ∧ nextTokenAux noFloat 1 ('1' :: ['2', '3', 'f'] ++ [])
      = some (⟨CLITokenType.Unknown, "123f"⟩, []) := by
  constructor
  · rw [c5_integer_token noFloat 1 '+' ['0', '0', '7'] [] 7 (by decide) (by decide)
      (by decide) (by decide) (Or.inl rfl) (by decide)]
    decide
  · rw [c5_integer_token noFloat 1 '1' ['2', '3', 'f'] [] 123 (by decide) (by decide)
      (by decide) (by decide) (Or.inl rfl) (by decide)]
    decide

/-- Claim C6 counterexample: `CLIToken` records only a kind and a text.  The
two `Identifier` tokens produced from `"a a"` begin at source offsets 0 and
2, yet they are the very same token value, so no function of the token can
return each one's starting offset — the claimed `position` field does not
exist. -/
theorem c6_counterexample :
    nextTokenAux noFloat 1 ("a a".toList)
      = some (⟨CLITokenType.Identifier, "a"⟩, [' ', 'a'])
    ∧ nextTokenAux noFloat 1 [' ', 'a']
      = some (⟨CLITokenType.Identifier, "a"⟩, [])
    ∧ ¬ ∃ position : CLIToken → Nat,
        position ⟨CLITokenType.Identifier, "a"⟩ = 0
        ∧ position ⟨CLITokenType.Identifier, "a"⟩ = 2 := by
  refine ⟨by decide, by decide, ?_⟩
  rintro ⟨p, h0, h2⟩
  rw [h0] at h2
  exact absurd h2 (by decide)

/-- Claim C6 (amended): a token carries only its kind and its text; two
tokens with the same kind and the same text are equal, so tokens record no
position (or any other) information. -/
theorem c6_token_kind_text_only (t₁ t₂ : CLIToken)
    (hk : t₁.type = t₂.type) (hv : t₁.value = t₂.value) : t₁ = t₂ := by
  cases t₁
  cases t₂
  cases hk
  cases hv
  rfl

/-- Claim C6 witness: the amended extensionality applied to two literal
tokens. -/
theorem c6_token_kind_text_only_witness :
    (⟨CLITokenType.Unknown, "x"⟩ : CLIToken) = ⟨CLITokenType.Unknown, "x"⟩ :=
  c6_token_kind_text_only ⟨CLITokenType.Unknown, "x"⟩ ⟨CLITokenType.Unknown, "x"⟩
    rfl rfl

/-- Claim C7: inside string scanning, a backslash followed by any character
other than CR or NL appends that character literally with the backslash
dropped; a backslash immediately followed by a newline discards both
characters; and lexing `"abc\"def"` (quotes included) yields a `String`
token with text `abc"def`. -/
theorem c7_string_escapes :
    (∀ (v : String) (c : Char) (rest : List Char), c ≠ '\r' → c ≠ '\n' →
      readString v true (c :: rest) = readString (v.push c) false rest)
    ∧ (∀ (v : String) (rest : List Char),
      readString v false ('\\' :: '\n' :: rest) = readString v false rest)
    ∧ nextTokenAux noFloat 1 ("\"abc\\\"def\"".toList)
      = some (⟨CLITokenType.String, "abc\"def"⟩, []) := by
  refine ⟨?_, ?_, by decide⟩
  · intro v c rest hr hn
    have hstep : readString v true (c :: rest)
        = if c = '\r' then readString v true rest
          else if c = '\n' then readString v false rest
          else readString (v.push c) false rest := rfl
    rw [hstep, if_neg hr, if_neg hn]
  · intro v rest
    rfl

/-- Claim C7 witness: an escaped quote is appended literally. -/
theorem c7_string_escapes_witness :
    readString "ab" true ('"' :: ['c']) = readString (String.push "ab" '"') false ['c'] :=
  c7_string_escapes.1 "ab" '"' ['c'] (by decide) (by decide)

/-- Claim C8: reaching end-of-input during string scanning before an
unescaped closing quote produces a token of kind `String` — not `Unknown`
and not a distinct error kind — whose text is exactly the content
accumulated so far; in particular `nextToken` on a quote followed by plain
content and no closing quote returns `String` with that content. -/
theorem c8_unterminated_string (floatRender : String → Option String) (fuel : Nat)
    (l : List Char) (h : ∀ c ∈ l, c ≠ '"' ∧ c ≠ '\\') :
    nextTokenAux floatRender fuel ('"' :: l)
      = some (⟨CLITokenType.String, ⟨l⟩⟩, [])
    ∧ (∀ (v : String) (escape : Bool),
      readString v escape [] = (⟨CLITokenType.String, v⟩, [])) := by
  constructor
  · have hstep : nextTokenAux floatRender fuel ('"' :: l)
        = some (readString "" false l) := rfl
    rw [hstep, show ("" : String) = (⟨[]⟩ : String) from rfl, readString_plain l h []]
    simp
  · intro v escape
    rfl

/-- Claim C8 witness: the unterminated string `"abc` (no closing quote)
lexes to a `String` token with text `abc`. -/
theorem c8_unterminated_string_witness :
    nextTokenAux noFloat 1 ('"' :: "abc".toList)
      = some (⟨CLITokenType.String, ⟨"abc".toList⟩⟩, []) :=
  (c8_unterminated_string noFloat 1 ("abc".toList) (by decide)).1

/-- Claim C9: once `nextToken` has returned an `EndOfFile` token, that token
has empty text, the source is exhausted, and every subsequent `nextToken`
call returns the `EndOfFile` token with empty text again — never any other
kind. -/
theorem c9_eof_absorbing (floatRender : String → Option String) (fuel : Nat)
    (s : List Char) (t : CLIToken) (s₂ : List Char)
    (h : nextTokenAux floatRender fuel s = some (t, s₂))
    (ht : t.type = CLITokenType.EndOfFile) :
    t.value = "" ∧ s₂ = []
    ∧ ∀ fuel₂ : Nat, nextTokenAux floatRender fuel₂ s₂
        = some (⟨CLITokenType.EndOfFile, ""⟩, []) := by
  obtain ⟨hv, hs⟩ := nextTokenAux_eof_state s floatRender fuel t s₂ h ht
  refine ⟨hv, hs, fun fuel₂ => ?_⟩
  rw [hs]
  rfl

/-- Claim C9 witness: lexing a single space returns `EndOfFile`; the theorem
gives the empty text and that a repeated call on the exhausted source
returns `EndOfFile` again. -/
theorem c9_eof_absorbing_witness :
    (⟨CLITokenType.EndOfFile, ""⟩ : CLIToken).value = ""
    ∧ nextTokenAux noFloat 5 ([] : List Char)
      = some (⟨CLITokenType.EndOfFile, ""⟩, []) := by
  have h := c9_eof_absorbing noFloat 1 [' '] ⟨CLITokenType.EndOfFile, ""⟩ []
    (by decide) rfl
  exact ⟨h.1, h.2.2 5⟩

/-- Claim C10: a NUL character terminates each peek-driven sub-scanner
(identifier, number and comment scanning): the loop condition
`while ((c = stream_.peek()))` exits on the NUL byte, the token ends with
the text accumulated so far — for identifier and number scanning exactly as
at end-of-input — and the NUL is neither consumed nor included in the
token text. -/
theorem c10_nul_terminates (v : String) (rest : List Char) (fuel : Nat) :
    readIdentifier v (nulChar :: rest)
      = (⟨CLITokenType.Identifier, v⟩, nulChar :: rest)
    ∧ readNumberRun v (nulChar :: rest) = (v, nulChar :: rest)
    ∧ readComment (fuel + 1) v (nulChar :: rest)
      = some (⟨CLITokenType.Comment, v⟩, nulChar :: rest)
    ∧ readIdentifier v [] = (⟨CLITokenType.Identifier, v⟩, [])
    ∧ readNumberRun v [] = (v, []) :=
  ⟨rfl, rfl, rfl, rfl, rfl⟩

end ArgCLITool
